import Mathlib

/-!
Verification of the slug-resolution and navigation subsystem of the
documentation site.

Strings are modelled as lists of characters (`Str`).  JavaScript string
methods are translated as follows:
* `replace(/_/g, " ")` — map each underscore to a space;
* `trim()` — drop leading and trailing whitespace;
* `toLowerCase()` — `Char.toLower` on each character (ASCII case mapping);
* `replace(/\s+/g, "-")` — replace each maximal whitespace run by one hyphen,
  implemented with a run flag so the function is structurally recursive;
* whitespace (`\s`, `trim`) is modelled by the ASCII whitespace characters
  (space, tab, LF, VT, FF, CR).
-/

namespace DocsSite

abbrev Str := List Char

def str (s : String) : Str := s.data

/-- Characters matched by the regex class backslash-s (ASCII part) and
removed by `trim`. -/
def isSpaceChar (c : Char) : Bool :=
  decide (c.toNat = 32 ∨ c.toNat = 9 ∨ c.toNat = 10 ∨
    c.toNat = 13 ∨ c.toNat = 11 ∨ c.toNat = 12)

/-- Stage `input.replace(/_/g, " ")` from `src/lib/slugify.ts`. -/
def underscoreToSpace (s : Str) : Str :=
  s.map (fun c => if c == '_' then ' ' else c)

/-- Model of `String.prototype.trim()`. -/
def trimStr (s : Str) : Str :=
  ((s.dropWhile isSpaceChar).reverse.dropWhile isSpaceChar).reverse

/-- Model of `String.prototype.toLowerCase()` (ASCII case mapping). -/
def toLowerStr (s : Str) : Str := s.map Char.toLower

/-- Replace each maximal whitespace run by a single hyphen.  The boolean
records whether the previous character was part of a whitespace run. -/
def collapseAux : Bool → Str → Str
  | _, [] => []
  | inRun, c :: cs =>
    if isSpaceChar c then
      (if inRun then [] else ['-']) ++ collapseAux true cs
    else
      c :: collapseAux false cs

/-- Stage `.replace(/\s+/g, "-")` — global replacement of whitespace runs. -/
def collapseWs (s : Str) : Str := collapseAux false s

/-- Function `slugify` from `src/lib/slugify.ts`:
underscores to spaces, trim, lowercase, whitespace runs to hyphens. -/
def slugify (s : Str) : Str :=
  collapseWs (toLowerStr (trimStr (underscoreToSpace s)))

/-! ### The slug-mapping routine from `src/lib/slug-mapping.ts` -/

/-- Stage `.replace(/^\d+_/, "")` — strip one leading digit run followed by an
underscore, if present. -/
def stripLeadingNum (s : Str) : Str :=
  let ds := s.takeWhile Char.isDigit
  let rest := s.drop ds.length
  if ds ≠ [] ∧ rest.head? = some '_' then rest.tail else s

/-- The folder-slug computation in `createSlugMapping`
(`src/lib/slug-mapping.ts` lines 29-33): strip the numeric name prefix,
underscores to hyphens, lowercase, whitespace runs to hyphens (no trim). -/
def mappingFolderSlug (s : Str) : Str :=
  collapseWs (toLowerStr ((stripLeadingNum s).map
    (fun c => if c == '_' then '-' else c)))

/-! ### Markdown name helpers shared by the walker and the resolver -/

def endsWithStr (suf s : Str) : Bool := suf.isSuffixOf s

/-- Model of `name.replace(/\.md$/, "")` — strip a case-sensitive `.md` suffix. -/
def stripMd (n : Str) : Str :=
  if endsWithStr (str ".md") n then n.take (n.length - 3) else n

/-- Model of `name.toLowerCase().endsWith(".md")` — the case-insensitive extension test
used by the final resolver step. -/
def lowerMd (n : Str) : Bool := endsWithStr (str ".md") (toLowerStr n)

/-! ### Filesystem model

A directory entry is a directory (with a readability flag: listing an
unreadable directory is the `fs.readdir` rejection) or a file.  A file
carries its parsed source: gray-matter either throws (`fm = none`,
malformed front matter) or yields front-matter data plus the body. -/

structure FrontMatter where
  title : Option Str
  nxt : Option Str
  prev : Option Str
  uiLink : Option Str

structure MdSource where
  fm : Option FrontMatter
  body : Str

mutual
inductive FsEntry where
  | dir (name : Str) (readable : Bool) (children : FsList)
  | file (name : Str) (src : MdSource)
inductive FsList where
  | nil
  | cons (e : FsEntry) (rest : FsList)
end

def FsEntry.name : FsEntry → Str
  | .dir n _ _ => n
  | .file n _ => n

def FsEntry.isDir : FsEntry → Bool
  | .dir _ _ _ => true
  | .file _ _ => false

def FsEntry.isFile : FsEntry → Bool
  | .dir _ _ _ => false
  | .file _ _ => true

def FsList.find? (p : FsEntry → Bool) : FsList → Option FsEntry
  | .nil => none
  | .cons e rest => if p e then some e else FsList.find? p rest

def FsList.all (p : FsEntry → Bool) : FsList → Bool
  | .nil => true
  | .cons e rest => p e && FsList.all p rest

def FsList.Mem (e : FsEntry) : FsList → Prop
  | .nil => False
  | .cons x rest => e = x ∨ FsList.Mem e rest

instance : Membership FsEntry FsList := ⟨fun l e => FsList.Mem e l⟩

/-! ### Tree walker (`getAllMarkdownSlugs`, page.tsx lines 153-173) -/

structure DocRec where
  slug : List Str
  title : Str
  filePath : List Str

mutual
/-- The body of the `walk` loop for one directory entry. -/
def walkEntry : FsEntry → List Str → List Str → Except Unit (List DocRec)
  | .dir n r ch, slugAcc, pathAcc =>
    if r then walkList ch (slugAcc ++ [slugify n]) (pathAcc ++ [n])
    else .error ()
  | .file n _, slugAcc, pathAcc =>
    .ok (if endsWithStr (str ".md") n then
      [⟨slugAcc ++ [slugify (stripMd n)], stripMd n, pathAcc ++ [n]⟩]
    else [])
/-- Loop `walk(dir, parentSlugs)`: iterate the directory listing in order,
recursing into subdirectories and collecting `.md` files. -/
def walkList : FsList → List Str → List Str → Except Unit (List DocRec)
  | .nil, _, _ => .ok []
  | .cons e rest, slugAcc, pathAcc => do
    let xs ← walkEntry e slugAcc pathAcc
    let ys ← walkList rest slugAcc pathAcc
    .ok (xs ++ ys)
end

/-- Function `getAllMarkdownSlugs(version)`: list `docs/<version>` and walk it with
`parentSlugs = [version]`.  A missing or unreadable version directory is the
`fs.readdir` rejection. -/
def getAllMarkdownSlugs (docs : FsList) (version : Str) :
    Except Unit (List DocRec) :=
  match docs.find? (fun e => e.name == version) with
  | some (.dir _ true ch) => walkList ch [version] [version]
  | _ => .error ()

/-! ### Slug resolver (`findMatchingFilePath`, page.tsx lines 30-57) -/

/-- Predicate for intermediate segments: directory entries whose slugified
name equals the requested part, compared verbatim. -/
def dirSegMatch (part : Str) (e : FsEntry) : Bool :=
  e.isDir && slugify e.name == part

/-- Predicate for the final segment: a file whose lowercased name ends in
`.md` and whose slugified base name equals the re-slugified last part. -/
def fileSegMatch (lastPart : Str) (e : FsEntry) : Bool :=
  e.isFile && lowerMd e.name && slugify (stripMd e.name) == slugify lastPart

def fmfpAux : FsList → List Str → List Str → Except Unit (Option (List Str))
  | _, _, [] => .error ()
  | es, acc, [lastPart] =>
    .ok (match es.find? (fileSegMatch lastPart) with
      | some f => some (acc ++ [f.name])
      | none => none)
  | es, acc, part :: p2 :: rest =>
    match es.find? (dirSegMatch part) with
    | none => .ok none
    | some (.dir n true ch) => fmfpAux ch (acc ++ [n]) (p2 :: rest)
    | some (.dir _ false _) => .error ()
    | some (.file _ _) => .error ()

/-- Resolver `findMatchingFilePath(slugParts)` rooted at the `docs` directory; returns
the matched real path (as the list of real entry names below `docs`). -/
def findMatchingFilePath (docs : FsList) (slugParts : List Str) :
    Except Unit (Option (List Str)) :=
  fmfpAux docs [] slugParts

/-- Model of `fs.readFile` of a real path below `docs`. -/
def getFileAt : FsList → List Str → Option MdSource
  | _, [] => none
  | es, [n] =>
    match es.find? (fun e => e.isFile && e.name == n) with
    | some (.file _ src) => some src
    | _ => none
  | es, n :: n2 :: rest =>
    match es.find? (fun e => e.isDir && e.name == n) with
    | some (.dir _ true ch) => getFileAt ch (n2 :: rest)
    | _ => none

/-! ### Folder tree (`getFolderTree`, page.tsx lines 214-234) -/

mutual
inductive NavNode where
  | folder (name : Str) (children : NavList)
  | file (name : Str)
inductive NavList where
  | nil
  | cons (n : NavNode) (rest : NavList)
end

def NavNode.name : NavNode → Str
  | .folder n _ => n
  | .file n => n

mutual
def getFolderTreeEntry : FsEntry → Except Unit (Option NavNode)
  | .dir n r ch =>
    if r then do
      let t ← getFolderTreeList ch
      .ok (some (.folder n t))
    else .error ()
  | .file n _ => .ok (if endsWithStr (str ".md") n then some (.file n) else none)
def getFolderTreeList : FsList → Except Unit NavList
  | .nil => .ok .nil
  | .cons e rest => do
    let x ← getFolderTreeEntry e
    let t ← getFolderTreeList rest
    .ok (match x with | some node => .cons node t | none => t)
end

def getFolderTree (es : FsList) : Except Unit NavList := getFolderTreeList es

/-! ### Cross-reference resolver (`resolveFeatureCardLink`, page.tsx 60-104) -/

structure PageLink where
  href : Str
  title : Str
deriving DecidableEq

def joinSlash : List Str → Str
  | [] => []
  | [s] => s
  | s :: rest => s ++ '/' :: joinSlash rest

def sectionSlugMap (sectionId : Str) : Option Str :=
  if sectionId == str "platform-introduction" then
    some (slugify (str "01_GRA_Core_Platform Introduction"))
  else if sectionId == str "user-guide" then
    some (slugify (str "02_User Guide"))
  else if sectionId == str "api-reference" then
    some (slugify (str "03_API Reference"))
  else if sectionId == str "examples-tutorials" then
    some (slugify (str "04_Examples & Tutorials"))
  else if sectionId == str "development-guide" then
    some (slugify (str "05_Development Guide"))
  else if sectionId == str "gcp-feature-in-depth" then
    some (slugify (str "06_GCP Feature InDepth"))
  else none

def sectionTitleMap (sectionId : Str) : Option Str :=
  if sectionId == str "platform-introduction" then
    some (str "GRA Core Platform Introduction")
  else if sectionId == str "user-guide" then some (str "User Guide")
  else if sectionId == str "api-reference" then some (str "API Reference")
  else if sectionId == str "examples-tutorials" then
    some (str "Examples & Tutorials")
  else if sectionId == str "development-guide" then
    some (str "Development Guide")
  else if sectionId == str "gcp-feature-in-depth" then
    some (str "GCP Feature In-Depth")
  else none

mutual
def findFirstFileSlugNode : NavNode → List Str → Option (List Str)
  | .file n, parentSlugs => some (parentSlugs ++ [slugify (stripMd n)])
  | .folder n ch, parentSlugs =>
    findFirstFileSlugList ch (parentSlugs ++ [slugify n])
def findFirstFileSlugList : NavList → List Str → Option (List Str)
  | .nil, _ => none
  | .cons c rest, parentSlugs =>
    match findFirstFileSlugNode c parentSlugs with
    | some found => some found
    | none => findFirstFileSlugList rest parentSlugs
end

def findFolderNodeBySlug : NavList → Str → Option NavNode
  | .nil, _ => none
  | .cons (.folder nm ch) rest, slug =>
    if slugify nm == slug then some (.folder nm ch)
    else findFolderNodeBySlug rest slug
  | .cons (.file _) rest, slug => findFolderNodeBySlug rest slug

def resolveFeatureCardLink (sectionId : Str) (selectedVersion : Str)
    (folderTree : NavList) : Option PageLink :=
  match sectionSlugMap sectionId with
  | none => none
  | some folderSlug =>
    match findFolderNodeBySlug folderTree folderSlug with
    | none => none
    | some folderNode =>
      match findFirstFileSlugNode folderNode [folderSlug] with
      | none => none
      | some fileSlugArr =>
        some ⟨str "/docs/" ++ selectedVersion ++ str "/" ++ joinSlash fileSlugArr,
          (sectionTitleMap sectionId).getD sectionId⟩

/-! ### Document loading (`getDocContent`, page.tsx lines 107-150) -/

/-- JavaScript string truthiness for an optional front-matter field. -/
def jsTruthy : Option Str → Option Str
  | some s => if s.isEmpty then none else some s
  | none => none

def fcMarker : Str := str "feature-card:"

/-- The `next`/`prev`/`uiLink` resolution branch of `getDocContent`. -/
def resolveNavField (v : Option Str) (fallbackTitle : Str) (tree : NavList)
    (version : Str) : Option PageLink :=
  match jsTruthy v with
  | none => none
  | some s =>
    if fcMarker.isPrefixOf s then
      resolveFeatureCardLink (s.drop fcMarker.length) version tree
    else some ⟨s, fallbackTitle⟩

/-- Backtracking step of the regex `^#\s+(.+)$` after a line-start `#`:
try the longest whitespace run first (greedy `\s+`), then shorter runs,
capturing the run of non-newline characters that follows. -/
def tryCapture : Nat → Str → Option Str
  | 0, _ => none
  | k + 1, rest =>
    match rest.drop (k + 1) with
    | [] => tryCapture k rest
    | c :: cs =>
      if c == '\n' then tryCapture k rest
      else some ((c :: cs).takeWhile (fun d => d != '\n'))

def headingAfterHash (rest : Str) : Option Str :=
  tryCapture (rest.takeWhile isSpaceChar).length rest

/-- Model of `content.match(/^#\s+(.+)$/m)?.[1]` — leftmost match: scan for a `#` at
a line start whose tail matches, returning the captured group. -/
def headingScan : Str → Bool → Option Str
  | [], _ => none
  | c :: cs, atStart =>
    if atStart && c == '#' then
      match headingAfterHash cs with
      | some cap => some cap
      | none => headingScan cs (c == '\n')
    else headingScan cs (c == '\n')

def headingCapture (content : Str) : Option Str := headingScan content true

/-- Title rule `data.title || content.match(/^#\s+(.+)$/m)?.[1]?.trim() || slug[slug.length - 1]`. -/
def titleOf (t : Option Str) (content : Str) (slug : List Str) : Str :=
  match jsTruthy t with
  | some s => s
  | none =>
    match jsTruthy ((headingCapture content).map trimStr) with
    | some h => h
    | none => slug.getLast?.getD []

structure DocOut where
  title : Str
  nextPage : Option PageLink
  previousPage : Option PageLink
  uiLink : Option PageLink

def getDocContent (docs : FsList) (slug : List Str) (folderTree : NavList)
    (selectedVersion : Str) : Except Unit (Option DocOut) := do
  let p? ← findMatchingFilePath docs slug
  match p? with
  | none => .ok none
  | some p =>
    match getFileAt docs p with
    | none => .ok none
    | some src =>
      match src.fm with
      | none => .ok none
      | some data =>
        .ok (some ⟨titleOf data.title src.body slug,
          resolveNavField data.nxt (str "Next") folderTree selectedVersion,
          resolveNavField data.prev (str "Previous") folderTree selectedVersion,
          resolveNavField data.uiLink (str "UI Link") folderTree selectedVersion⟩)

/-! ### Chronological prev/next (`getPageNavigationChronological`, 176-197) -/

def recLink (f : DocRec) : PageLink := ⟨str "/docs/" ++ joinSlash f.slug, f.title⟩

def getPageNavigationChronological (docs : FsList) (slug : List Str) :
    Except Unit (Option PageLink × Option PageLink) :=
  match slug with
  | [] => .error ()
  | v :: _ => do
    let allFiles ← getAllMarkdownSlugs docs v
    .ok (match allFiles.findIdx? (fun f => joinSlash f.slug == joinSlash slug) with
      | none => (none, none)
      | some i =>
        ((if 0 < i then (allFiles[i - 1]?).map recLink else none),
         (if i < allFiles.length - 1 then (allFiles[i + 1]?).map recLink else none)))

/-! ### Sidebar navigation items (`src/components/sidebar`, part of C4) -/

inductive NavType where
  | folder
  | file
deriving DecidableEq

inductive NavItem where
  | mk (title : Str) (icon : Str) (ty : NavType) (href : Option Str)
      (items : List NavItem)

def NavItem.title : NavItem → Str
  | .mk t _ _ _ _ => t

def NavItem.ty : NavItem → NavType
  | .mk _ _ ty _ _ => ty

/-- Function `convertTreeToNav` from the Sidebar component: folder tree to nav items,
slugifying names along the parent path. -/
def convertTreeToNavList (version : Str) : NavList → List Str → List NavItem
  | .nil, _ => []
  | .cons (.folder n ch) rest, parentPath =>
    .mk n (str "Folder") .folder none
        (convertTreeToNavList version ch (parentPath ++ [slugify n])) ::
      convertTreeToNavList version rest parentPath
  | .cons (.file n) rest, parentPath =>
    .mk (stripMd n) (str "FileText") .file
        (some (str "/docs/" ++ version ++ str "/" ++
          joinSlash (parentPath ++ [slugify (stripMd n)]))) [] ::
      convertTreeToNavList version rest parentPath

def digitsToNat (s : Str) : Nat :=
  s.foldl (fun acc c => 10 * acc + (c.toNat - 48)) 0

/-- Model of `a.localeCompare(b, undefined, { numeric: true })`: maximal
digit runs compare as numbers, other characters by code point. -/
def localeCmpNumeric (a b : Str) : Int :=
  match a, b with
  | [], [] => 0
  | [], _ :: _ => -1
  | _ :: _, [] => 1
  | c :: cs, d :: ds =>
    if c.isDigit && d.isDigit then
      let na := c :: cs.takeWhile Char.isDigit
      let nb := d :: ds.takeWhile Char.isDigit
      if digitsToNat na < digitsToNat nb then -1
      else if digitsToNat nb < digitsToNat na then 1
      else localeCmpNumeric (cs.drop (cs.takeWhile Char.isDigit).length)
        (ds.drop (ds.takeWhile Char.isDigit).length)
    else if c.toNat < d.toNat then -1
    else if d.toNat < c.toNat then 1
    else localeCmpNumeric cs ds
termination_by a.length + b.length
decreasing_by
  · simp only [List.length_drop, List.length_cons]
    omega
  · simp only [List.length_cons]; omega

/-- The sidebar's top-level sort comparator (`SidebarContent`): folders come
before files, then locale-aware numeric comparison on the title. -/
def navCmp (a b : NavItem) : Int :=
  if a.ty = .folder ∧ b.ty = .file then -1
  else if a.ty = .file ∧ b.ty = .folder then 1
  else localeCmpNumeric a.title b.title

/-- Stable insertion used to model `Array.prototype.sort(cmp)` (stable per
the ECMAScript specification). -/
def insertByCmp (cmp : NavItem → NavItem → Int) (x : NavItem) :
    List NavItem → List NavItem
  | [] => [x]
  | y :: ys => if cmp x y < 0 then x :: y :: ys else y :: insertByCmp cmp x ys

def sortByCmp (cmp : NavItem → NavItem → Int) : List NavItem → List NavItem
  | [] => []
  | x :: xs => insertByCmp cmp x (sortByCmp cmp xs)

/-- Sort `navigation.sort(...)` at the top level of the sidebar. -/
def sortNav (items : List NavItem) : List NavItem := sortByCmp navCmp items

/-! ### Sibling-uniqueness hypotheses for the round-trip theorem -/

/-- Two sibling entries clash when the resolver cannot tell them apart:
two directories with the same slugified name, or two resolver-matchable
files with the same slugified base name. -/
def clash : FsEntry → FsEntry → Bool
  | .dir n _ _, .dir m _ _ => slugify n == slugify m
  | .file n _, .file m _ =>
    lowerMd n && lowerMd m && (slugify (stripMd n) == slugify (stripMd m))
  | _, _ => false

def noClash (e : FsEntry) (es : FsList) : Bool := es.all (fun x => !clash e x)

mutual
def goodEntry : FsEntry → Bool
  | .dir _ _ ch => goodList ch
  | .file _ _ => true
/-- No two sibling entries clash, recursively through the whole tree. -/
def goodList : FsList → Bool
  | .nil => true
  | .cons e rest => noClash e rest && goodEntry e && goodList rest
end

/-! ### Reference definitions taken from the specification's wording -/

mutual
/-- Spec wording (amended C4): the depth-first flattened document sequence
in raw directory-listing order — each entry contributes its records at its
listing position, a folder inline via its children, with no reordering. -/
def dfsFlattenEntry : FsEntry → List Str → List Str → List DocRec
  | .dir n _ ch, slugAcc, pathAcc =>
    dfsFlattenList ch (slugAcc ++ [slugify n]) (pathAcc ++ [n])
  | .file fn _, slugAcc, pathAcc =>
    if endsWithStr (str ".md") fn then
      [⟨slugAcc ++ [slugify (stripMd fn)], stripMd fn, pathAcc ++ [fn]⟩]
    else []
def dfsFlattenList : FsList → List Str → List Str → List DocRec
  | .nil, _, _ => []
  | .cons e rest, slugAcc, pathAcc =>
    dfsFlattenEntry e slugAcc pathAcc ++ dfsFlattenList rest slugAcc pathAcc
end

/-- Spec wording (§4.2): within a directory all Folder nodes precede all
File nodes — checked at every level of a folder tree. -/
def navListHasFolder : NavList → Bool
  | .nil => false
  | .cons (.folder _ _) _ => true
  | .cons (.file _) rest => navListHasFolder rest

mutual
def treeFoldersFirstNode : NavNode → Bool
  | .folder _ ch => treeFoldersFirstList ch
  | .file _ => true
def treeFoldersFirstList : NavList → Bool
  | .nil => true
  | .cons x rest =>
    (match x with
     | .file _ => !navListHasFolder rest
     | .folder _ _ => true) &&
    treeFoldersFirstNode x && treeFoldersFirstList rest
end

def notFolder (y : NavItem) : Bool := y.ty ≠ NavType.folder

/-- Spec wording: all folder items precede all file items in a flat list. -/
def topFoldersBeforeFiles : List NavItem → Bool
  | [] => true
  | x :: xs =>
    (match x.ty with
     | .file => xs.all notFolder
     | .folder => true) &&
    topFoldersBeforeFiles xs

/-- Real names of the entries `getFolderTree` keeps, in listing order. -/
def keptNames : FsList → List Str
  | .nil => []
  | .cons e rest =>
    (if e.isDir || endsWithStr (str ".md") e.name then [e.name] else []) ++
      keptNames rest

def navListNames : NavList → List Str
  | .nil => []
  | .cons n rest => n.name :: navListNames rest

/-- Shape of a record produced by the walker inside a directory listing:
it is owed to some entry of the listing — either a readable subdirectory
whose slug heads the remaining slug path, or a `.md` file matching the
final segment. -/
def walkShape (S P : List Str) (e : FsEntry) (r : DocRec) : Prop :=
  (∃ n ch, e = FsEntry.dir n true ch ∧
    ∃ t q, t ≠ [] ∧ r.slug = S ++ slugify n :: t ∧ r.filePath = P ++ n :: q) ∨
  (∃ fn src, e = FsEntry.file fn src ∧ endsWithStr (str ".md") fn = true ∧
    r.slug = S ++ [slugify (stripMd fn)] ∧ r.filePath = P ++ [fn])

/-- Spec wording for the amended title rule: the front-matter `title` when
non-empty, else the trimmed first `#` heading when non-empty, else the
final slug segment of the requested path. -/
def specTitle (fmTitle : Option Str) (heading : Option Str) (lastSeg : Str) :
    Str :=
  match fmTitle with
  | some t => if t ≠ [] then t else specHeadingFallback heading lastSeg
  | none => specHeadingFallback heading lastSeg
where
  specHeadingFallback (heading : Option Str) (lastSeg : Str) : Str :=
    match heading with
    | some h => if trimStr h ≠ [] then trimStr h else lastSeg
    | none => lastSeg

/-! ### Concrete instances used by witnesses and counterexamples -/

def fmEmpty : FrontMatter := ⟨none, none, none, none⟩

def srcPlain : MdSource := ⟨some fmEmpty, str "hello"⟩

def c10es : FsList := .cons (.file (str "Notes.MD") srcPlain) .nil

def c5docs : FsList := .cons (.dir (str "gcp-5.7") true .nil) .nil

def c6entries : FsList :=
  .cons (.dir (str "secret") false .nil)
    (.cons (.file (str "good.md") srcPlain) .nil)

def c2src : MdSource :=
  ⟨some ⟨none, some (str "feature-card:user-guide"), none, none⟩,
    str "# Overview body"⟩

def c2ch : FsList :=
  .cons (.dir (str "02_User Guide") true
    (.cons (.file (str "overview.md") c2src) .nil)) .nil

def c2docs : FsList := .cons (.dir (str "gcp-5.7") true c2ch) .nil

def c2tree : NavList :=
  .cons (.folder (str "02_User Guide")
    (.cons (.file (str "overview.md")) .nil)) .nil

def c7src : MdSource := ⟨some fmEmpty, str "no heading here"⟩

def c7docs : FsList :=
  .cons (.dir (str "gcp-5.7") true
    (.cons (.dir (str "04_Examples & Tutorials") true
      (.cons (.file (str "User Authentication.md") c7src) .nil)) .nil)) .nil

def c7slug : List Str :=
  [str "gcp-5.7", str "04-examples-&-tutorials", str "user-authentication"]

def c7malsrc : MdSource := ⟨none, str "# Title here"⟩

def c7maldocs : FsList :=
  .cons (.dir (str "gcp-5.7") true
    (.cons (.file (str "broken.md") c7malsrc) .nil)) .nil

def c8docs : FsList :=
  .cons (.dir (str "gcp-5.7") true
    (.cons (.file (str "a.md") srcPlain)
      (.cons (.file (str "b.md") srcPlain)
        (.cons (.file (str "c.md") srcPlain) .nil)))) .nil

def c4entries : FsList :=
  .cons (.file (str "b.md") srcPlain)
    (.cons (.dir (str "a") true
      (.cons (.file (str "c.md") srcPlain) .nil)) .nil)

def c4tree : NavList :=
  .cons (.file (str "b.md"))
    (.cons (.folder (str "a")
      (.cons (.file (str "c.md")) .nil)) .nil)

def c8files : List DocRec :=
  [⟨[str "gcp-5.7", str "a"], str "a", [str "gcp-5.7", str "a.md"]⟩,
   ⟨[str "gcp-5.7", str "b"], str "b", [str "gcp-5.7", str "b.md"]⟩,
   ⟨[str "gcp-5.7", str "c"], str "c", [str "gcp-5.7", str "c.md"]⟩]

-- THEOREMS-MARKER

/-! ### Character-level facts used for idempotence -/

theorem toNat_ofNat_valid (n : Nat) (h : n.isValidChar) :
    (Char.ofNat n).toNat = n := by
  unfold Char.ofNat
  rw [dif_pos h]
  unfold Char.ofNatAux Char.toNat
  rfl

theorem toLower_toNat_of_upper (c : Char) (h : 65 ≤ c.toNat ∧ c.toNat ≤ 90) :
    (Char.toLower c).toNat = c.toNat + 32 := by
  unfold Char.toLower
  rw [if_pos (by omega)]
  exact toNat_ofNat_valid _ (Or.inl (by omega))

theorem toLower_of_not_upper (c : Char) (h : ¬(65 ≤ c.toNat ∧ c.toNat ≤ 90)) :
    Char.toLower c = c := by
  unfold Char.toLower
  rw [if_neg (by omega)]

theorem toLower_idem (c : Char) :
    Char.toLower (Char.toLower c) = Char.toLower c := by
  by_cases h : 65 ≤ c.toNat ∧ c.toNat ≤ 90
  · have h2 := toLower_toNat_of_upper c h
    exact toLower_of_not_upper _ (by omega)
  · rw [toLower_of_not_upper c h]
    exact toLower_of_not_upper c h

theorem isSpaceChar_toLower (c : Char) :
    isSpaceChar (Char.toLower c) = isSpaceChar c := by
  by_cases h : 65 ≤ c.toNat ∧ c.toNat ≤ 90
  · have h2 := toLower_toNat_of_upper c h
    simp only [isSpaceChar, h2, decide_eq_decide]
    omega
  · rw [toLower_of_not_upper c h]

theorem toLower_ne_underscore (c : Char) (h : c ≠ '_') :
    Char.toLower c ≠ '_' := by
  by_cases hu : 65 ≤ c.toNat ∧ c.toNat ≤ 90
  · have h2 := toLower_toNat_of_upper c hu
    intro heq
    have : (Char.toLower c).toNat = 95 := by rw [heq]; rfl
    omega
  · rw [toLower_of_not_upper c hu]; exact h

/-! ### Stage lemmas: each stage is the identity on already-slugified text -/

/-- A character that can appear in `slugify` output: not whitespace, not an
underscore, and fixed by lowercasing. -/
def goodSlugChar (c : Char) : Prop :=
  isSpaceChar c = false ∧ c ≠ '_' ∧ Char.toLower c = c

theorem map_self_of_fixed (f : Char → Char) (s : Str)
    (h : ∀ c ∈ s, f c = c) : s.map f = s := by
  induction s with
  | nil => rfl
  | cons c rest ih =>
    simp only [List.map_cons, h c (by simp), List.cons.injEq, true_and]
    exact ih (fun d hd => h d (List.mem_cons_of_mem _ hd))

theorem underscoreToSpace_chars (s : Str) (c : Char)
    (hc : c ∈ underscoreToSpace s) : c ≠ '_' := by
  simp only [underscoreToSpace, List.mem_map] at hc
  obtain ⟨d, _, hd⟩ := hc
  by_cases h : d == '_'
  · simp [h] at hd; subst hd; decide
  · simp [h] at hd; subst hd; simpa using h

theorem trimStr_sublist (s : Str) (c : Char) (hc : c ∈ trimStr s) : c ∈ s := by
  simp only [trimStr, List.mem_reverse] at hc
  have h1 := List.dropWhile_sublist (l := (s.dropWhile isSpaceChar).reverse)
    (p := isSpaceChar)
  have h2 := h1.mem hc
  rw [List.mem_reverse] at h2
  exact (List.dropWhile_sublist (l := s) (p := isSpaceChar)).mem h2

theorem collapseAux_chars (s : Str) (b : Bool) (c : Char)
    (hc : c ∈ collapseAux b s) :
    c = '-' ∨ (c ∈ s ∧ isSpaceChar c = false) := by
  induction s generalizing b with
  | nil => simp [collapseAux] at hc
  | cons d rest ih =>
    by_cases hd : isSpaceChar d
    · simp only [collapseAux, if_pos hd] at hc
      rcases List.mem_append.mp hc with h | h
      · left
        cases b <;> simp_all
      · rcases ih true h with h1 | ⟨h1, h2⟩
        · exact Or.inl h1
        · exact Or.inr ⟨List.mem_cons_of_mem _ h1, h2⟩
    · simp only [collapseAux, if_neg hd] at hc
      rcases List.mem_cons.mp hc with h | h
      · subst h
        exact Or.inr ⟨List.mem_cons_self _ _, by simpa using hd⟩
      · rcases ih false h with h1 | ⟨h1, h2⟩
        · exact Or.inl h1
        · exact Or.inr ⟨List.mem_cons_of_mem _ h1, h2⟩

theorem slugify_chars (s : Str) (c : Char) (hc : c ∈ slugify s) :
    goodSlugChar c := by
  rcases collapseAux_chars _ _ _ hc with h | ⟨h1, h2⟩
  · subst h; refine ⟨by decide, by decide, by decide⟩
  · simp only [toLowerStr, List.mem_map] at h1
    obtain ⟨d, hd, hdc⟩ := h1
    subst hdc
    have hd' : d ∈ underscoreToSpace s := trimStr_sublist _ _ hd
    exact ⟨h2, toLower_ne_underscore d (underscoreToSpace_chars s d hd'),
      toLower_idem d⟩

theorem underscoreToSpace_id (s : Str) (h : ∀ c ∈ s, c ≠ '_') :
    underscoreToSpace s = s := by
  unfold underscoreToSpace
  exact map_self_of_fixed _ _ (fun c hc => by rw [if_neg (by simpa using h c hc)])

theorem dropWhile_id_of_all_false (p : Char → Bool) (s : Str)
    (h : ∀ c ∈ s, p c = false) : s.dropWhile p = s := by
  cases s with
  | nil => rfl
  | cons c rest => rw [List.dropWhile_cons_of_neg (by simp [h c (by simp)])]

theorem trimStr_id (s : Str) (h : ∀ c ∈ s, isSpaceChar c = false) :
    trimStr s = s := by
  unfold trimStr
  rw [dropWhile_id_of_all_false _ s h,
    dropWhile_id_of_all_false _ s.reverse (by simpa using h),
    List.reverse_reverse]

theorem toLowerStr_id (s : Str) (h : ∀ c ∈ s, Char.toLower c = c) :
    toLowerStr s = s := by
  unfold toLowerStr
  exact map_self_of_fixed _ _ h

theorem except_bind_ok {α β : Type} (a : α) (f : α → Except Unit β) :
    (Except.ok a >>= f) = f a := rfl

theorem except_bind_err {α β : Type} (f : α → Except Unit β) :
    ((Except.error () : Except Unit α) >>= f) = .error () := rfl

theorem fsMem_cons (e x : FsEntry) (rest : FsList) :
    e ∈ FsList.cons x rest ↔ (e = x ∨ e ∈ rest) := Iff.rfl

theorem fsAll_mem (p : FsEntry → Bool) (es : FsList) (e : FsEntry)
    (hall : FsList.all p es = true) (he : e ∈ es) : p e = true := by
  cases es with
  | nil => exact absurd he id
  | cons x rest =>
    simp only [FsList.all, Bool.and_eq_true] at hall
    rcases (fsMem_cons e x rest).mp he with h | h
    · subst h; exact hall.1
    · exact fsAll_mem p rest e hall.2 h

theorem noClash_mem (e e2 : FsEntry) (es : FsList)
    (h : noClash e es = true) (he : e2 ∈ es) : clash e e2 = false := by
  have := fsAll_mem _ _ _ h he
  simpa using this

theorem toLowerStr_append (a b : Str) :
    toLowerStr (a ++ b) = toLowerStr a ++ toLowerStr b := List.map_append _ _ _

theorem endsMd_lowerMd (n : Str) (h : endsWithStr (str ".md") n = true) :
    lowerMd n = true := by
  rw [endsWithStr, List.isSuffixOf_iff_suffix] at h
  obtain ⟨a, ha⟩ := h
  rw [lowerMd, endsWithStr, List.isSuffixOf_iff_suffix, ← ha,
    toLowerStr_append]
  exact ⟨toLowerStr a, rfl⟩

theorem collapseAux_id (s : Str) (h : ∀ c ∈ s, isSpaceChar c = false) :
    collapseAux false s = s := by
  induction s with
  | nil => rfl
  | cons c rest ih =>
    have hc : isSpaceChar c = false := h c (by simp)
    simp only [collapseAux, hc, Bool.false_eq_true, if_false]
    rw [ih (fun d hd => h d (List.mem_cons_of_mem _ hd))]

/-- Helper: `slugify` is the identity on strings all of whose characters are
already in slug form. -/
theorem slugify_id_of_good (s : Str) (h : ∀ c ∈ s, goodSlugChar c) :
    slugify s = s := by
  unfold slugify collapseWs
  rw [underscoreToSpace_id s (fun c hc => (h c hc).2.1),
    trimStr_id s (fun c hc => (h c hc).1),
    toLowerStr_id s (fun c hc => (h c hc).2.2),
    collapseAux_id s (fun c hc => (h c hc).1)]

/-- Helper shared by several developments: `slugify` is idempotent. -/
theorem slugify_idem (s : Str) : slugify (slugify s) = slugify s :=
  slugify_id_of_good _ (slugify_chars s)



/-! ### Resolver lemmas and claims C3, C9, C5, C10 -/

theorem find?_dirSegMatch_nonslug (p : Str) (hp : slugify p ≠ p)
    (es : FsList) : es.find? (dirSegMatch p) = none := by
  cases es with
  | nil => rfl
  | cons e rest =>
    have hpe : dirSegMatch p e = false := by
      rw [dirSegMatch]
      by_cases hb : (slugify e.name == p) = true
      · exfalso
        apply hp
        have heq : slugify e.name = p := by simpa using hb
        rw [← heq, slugify_idem, heq]
      · simp [Bool.eq_false_iff.mpr hb]
    rw [FsList.find?, if_neg (by simp [hpe])]
    exact find?_dirSegMatch_nonslug p hp rest

theorem fileSegMatch_congr (l1 l2 : Str) (h : slugify l1 = slugify l2) :
    fileSegMatch l1 = fileSegMatch l2 := by
  funext e
  rw [fileSegMatch, fileSegMatch, h]

theorem fmfpAux_congr_last (l1 l2 : Str) (h : slugify l1 = slugify l2) :
    ∀ (ps : List Str) (es : FsList) (acc : List Str),
      fmfpAux es acc (ps ++ [l1]) = fmfpAux es acc (ps ++ [l2]) := by
  intro ps
  induction ps with
  | nil =>
    intro es acc
    simp only [List.nil_append, fmfpAux, fileSegMatch_congr l1 l2 h]
  | cons q qs ih =>
    intro es acc
    cases qs with
    | nil =>
      simp only [List.cons_append, List.nil_append, fmfpAux]
      cases hf : es.find? (dirSegMatch q) with
      | none => rfl
      | some e =>
        cases e with
        | dir n rb ch =>
          cases rb with
          | true => exact ih ch (acc ++ [n])
          | false => rfl
        | file fn src => rfl
    | cons q2 qs2 =>
      simp only [List.cons_append, fmfpAux]
      cases hf : es.find? (dirSegMatch q) with
      | none => rfl
      | some e =>
        cases e with
        | dir n rb ch =>
          cases rb with
          | true => exact ih ch (acc ++ [n])
          | false => rfl
        | file fn src => rfl

theorem fmfpAux_find_file (es : FsList) (acc : List Str) (lastPart fn : Str)
    (src : MdSource)
    (h : es.find? (fileSegMatch lastPart) = some (.file fn src)) :
    fmfpAux es acc [lastPart] = .ok (some (acc ++ [fn])) := by
  simp only [fmfpAux, h, FsEntry.name]

/-- Claim C3: `slugify` is a total function on strings (it is a Lean
function `Str → Str`, defined for every input) and idempotent:
`slugify (slugify s) = slugify s` for every string `s`. -/
theorem c3_slugify_idempotent (s : Str) :
    slugify (slugify s) = slugify s := slugify_idem s

/-- Claim C9: the two slugification routines are not interchangeable — on
the name `02_User Guide` (which has a leading numeric prefix), the
slug-mapping routine strips the prefix and yields `user-guide` while
`slugify` keeps it and yields `02-user-guide`. -/
theorem c9_slug_routines_differ :
    mappingFolderSlug (str "02_User Guide") = str "user-guide" ∧
    slugify (str "02_User Guide") = str "02-user-guide" ∧
    mappingFolderSlug (str "02_User Guide") ≠ slugify (str "02_User Guide") :=
  ⟨rfl, rfl, by decide⟩

/-- Claim C5: when no directory entry slugifies to an intermediate segment
(in particular the first segment, be it a missing version or anything
else), or no `.md` file matches the final segment, resolution returns the
not-found value `.ok none` — not an exception (`.error`). -/
theorem c5_resolution_not_found (docs es : FsList) (p lastPart : Str)
    (rest acc : List Str)
    (hrest : rest ≠ [])
    (hdir : docs.find? (dirSegMatch p) = none)
    (hfile : es.find? (fileSegMatch lastPart) = none) :
    findMatchingFilePath docs (p :: rest) = .ok none ∧
    fmfpAux es acc [lastPart] = .ok none := by
  constructor
  · cases rest with
    | nil => exact absurd rfl hrest
    | cons r1 rs => simp only [findMatchingFilePath, fmfpAux, hdir]
  · simp only [fmfpAux, hfile]

theorem c5_witness :
    findMatchingFilePath c5docs [str "nope", str "x"] = .ok none ∧
    fmfpAux c5docs [] [str "absent"] = .ok none :=
  c5_resolution_not_found c5docs c5docs (str "nope") (str "absent")
    [str "x"] [] (by simp) rfl rfl

/-- Claim C10: slug resolution treats the final and intermediate segments
asymmetrically.  (i) An intermediate segment that is not in slug form
(not a fixed point of `slugify`) never matches any directory, so
resolution returns not-found.  (ii) The final segment is re-slugified:
two final segments with the same slugification resolve identically.
(iii) A file whose (case-insensitively) `.md`-suffixed name wins the
final-segment search is returned as the match. -/
theorem c10_segment_asymmetry :
    (∀ (es : FsList) (acc : List Str) (p p2 : Str) (rest : List Str),
      slugify p ≠ p → fmfpAux es acc (p :: p2 :: rest) = .ok none) ∧
    (∀ (l1 l2 : Str), slugify l1 = slugify l2 →
      ∀ (ps : List Str) (es : FsList) (acc : List Str),
        fmfpAux es acc (ps ++ [l1]) = fmfpAux es acc (ps ++ [l2])) ∧
    (∀ (es : FsList) (acc : List Str) (lastPart fn : Str) (src : MdSource),
      es.find? (fileSegMatch lastPart) = some (.file fn src) →
      fmfpAux es acc [lastPart] = .ok (some (acc ++ [fn]))) := by
  refine ⟨fun es acc p p2 rest hp => ?_, fmfpAux_congr_last, fmfpAux_find_file⟩
  simp only [fmfpAux, find?_dirSegMatch_nonslug p hp es]

theorem c10_witness :
    fmfpAux c10es [] [str "02_User Guide", str "x"] = .ok none ∧
    fmfpAux c10es [] ([] ++ [str "Notes"]) =
      fmfpAux c10es [] ([] ++ [str "notes"]) ∧
    fmfpAux c10es [] [str "notes.md"] = .ok (some ([] ++ [str "Notes.MD"])) :=
  ⟨c10_segment_asymmetry.1 c10es [] _ _ [] (by decide),
   c10_segment_asymmetry.2.1 (str "Notes") (str "notes") (by decide) [] c10es [],
   c10_segment_asymmetry.2.2 c10es [] _ _ srcPlain rfl⟩


/-! ### Claim C6: unreadable directories -/

theorem c6_unreadable_propagates (es : FsList) (n : Str) (ch : FsList)
    (hmem : FsEntry.dir n false ch ∈ es) :
    (∀ slugAcc pathAcc, walkList es slugAcc pathAcc = .error ()) ∧
    getFolderTreeList es = .error () := by
  cases es with
  | nil => exact absurd hmem id
  | cons e rest =>
    rcases (fsMem_cons _ e rest).mp hmem with h | h
    · subst h
      constructor
      · intro slugAcc pathAcc
        simp only [walkList, walkEntry, Bool.false_eq_true, if_false,
          except_bind_err]
      · simp only [getFolderTreeList, getFolderTreeEntry, Bool.false_eq_true,
          if_false, except_bind_err]
    · have ih := c6_unreadable_propagates rest n ch h
      constructor
      · intro slugAcc pathAcc
        cases he : walkEntry e slugAcc pathAcc with
        | error u =>
          cases u
          simp only [walkList, he, except_bind_err]
        | ok xs =>
          simp only [walkList, he, except_bind_ok, ih.1 slugAcc pathAcc,
            except_bind_err]
      · cases he : getFolderTreeEntry e with
        | error u =>
          cases u
          simp only [getFolderTreeList, he, except_bind_err]
        | ok x =>
          simp only [getFolderTreeList, he, except_bind_ok, ih.2,
            except_bind_err]

/-- Counterexample to claim C6 as stated: a listing with an unreadable
directory and a sibling `.md` file.  The walk and the folder-tree build
both fail with an error; they do not yield the sibling file with an empty
subtree (which would be the `.ok` value shown on the right). -/
theorem c6_counterexample :
    walkList c6entries [str "gcp-5.7"] [str "gcp-5.7"] = .error () ∧
    getFolderTreeList c6entries = .error () ∧
    (Except.error () : Except Unit (List DocRec)) ≠
      .ok [⟨[str "gcp-5.7", str "good"], str "good",
        [str "gcp-5.7", str "good.md"]⟩] := by
  refine ⟨rfl, rfl, ?_⟩
  simp

/-- Claim C6 (amended): an unreadable directory anywhere in a listing makes
the whole walk and the whole folder-tree build fail with an error — the
error propagates; no partial tree with an empty subtree is produced. -/
theorem c6_amended (es : FsList) (n : Str) (ch : FsList)
    (hmem : FsEntry.dir n false ch ∈ es) :
    (∀ slugAcc pathAcc, walkList es slugAcc pathAcc = .error ()) ∧
    getFolderTreeList es = .error () :=
  c6_unreadable_propagates es n ch hmem

theorem c6_witness :
    walkList c6entries [str "v"] [str "v"] = .error () ∧
    getFolderTreeList c6entries = .error () :=
  ⟨(c6_amended c6entries (str "secret") .nil (Or.inl rfl)).1 [str "v"] [str "v"],
   (c6_amended c6entries (str "secret") .nil (Or.inl rfl)).2⟩

/-! ### Claim C2: the feature-card example -/

/-- Counterexample to claim C2 as stated: for the documented example
(front matter `next: "feature-card:user-guide"`, section folder
`02_User Guide` containing `overview.md`), the code resolves `nextPage` to
href `/docs/gcp-5.7/02-user-guide/02-user-guide/overview` — the folder
slug keeps its numeric prefix and is duplicated — not to
`/docs/gcp-5.7/user-guide/overview` as the claim states. -/
theorem c2_counterexample :
    getFolderTreeList c2ch = .ok c2tree ∧
    getDocContent c2docs [str "gcp-5.7", str "02-user-guide", str "overview"]
        c2tree (str "gcp-5.7") =
      .ok (some ⟨str "Overview body",
        some ⟨str "/docs/gcp-5.7/02-user-guide/02-user-guide/overview",
          str "User Guide"⟩,
        none, none⟩) ∧
    (some (⟨str "/docs/gcp-5.7/02-user-guide/02-user-guide/overview",
        str "User Guide"⟩ : PageLink) ≠
      some ⟨str "/docs/gcp-5.7/user-guide/overview", str "User Guide"⟩) :=
  ⟨rfl, rfl, by decide⟩

/-- Claim C2 (amended): with front matter `next: "feature-card:user-guide"`
and the "user-guide" section folder `02_User Guide` containing
`overview.md`, the resolver produces `nextPage` with title `User Guide`
and href `/docs/<version>/02-user-guide/02-user-guide/overview`: the
folder slug retains its numeric prefix and appears twice. -/
theorem c2_amended (version : Str) :
    resolveNavField (some (str "feature-card:user-guide")) (str "Next")
        c2tree version =
      some ⟨str "/docs/" ++ version ++ str "/" ++
        str "02-user-guide/02-user-guide/overview", str "User Guide"⟩ := rfl


/-! ### Claim C7: title fallback -/

theorem titleOf_eq_specTitle (t : Option Str) (content : Str)
    (slug : List Str) :
    titleOf t content slug =
      specTitle t (headingCapture content) (slug.getLast?.getD []) := by
  have htier : ∀ lastSeg : Str,
      (match jsTruthy ((headingCapture content).map trimStr) with
       | some h => h
       | none => lastSeg) =
      specTitle.specHeadingFallback (headingCapture content) lastSeg := by
    intro lastSeg
    cases hh : headingCapture content with
    | none => rfl
    | some h =>
      simp only [Option.map, jsTruthy, specTitle.specHeadingFallback]
      by_cases ht : (trimStr h).isEmpty
      · have hteq : trimStr h = [] := List.isEmpty_iff.mp ht
        simp [ht, hteq]
      · have htne : trimStr h ≠ [] := by simpa [List.isEmpty_iff] using ht
        simp [ht, htne]
  cases t with
  | none =>
    simp only [titleOf, jsTruthy, specTitle]
    exact htier _
  | some s =>
    by_cases hs : s.isEmpty
    · have hseq : s = [] := List.isEmpty_iff.mp hs
      subst hseq
      simp only [titleOf, jsTruthy, List.isEmpty_nil, if_true, specTitle,
        ne_eq, not_true_eq_false, if_false]
      exact htier _
    · have hne : s ≠ [] := by simpa [List.isEmpty_iff] using hs
      simp only [titleOf, jsTruthy, if_neg hs, specTitle, ne_eq, hne,
        not_false_iff, if_true]

/-- Counterexample to claim C7 as stated: (i) for a resolved file named
`User Authentication.md` with no front-matter title and no heading, the
title is the final slug segment `user-authentication`, not the raw
filename `User Authentication`; (ii) a file whose front matter is
malformed (gray-matter throws) makes `getDocContent` return the not-found
value, so the page render does fail. -/
theorem c7_counterexample :
    getDocContent c7docs c7slug .nil (str "gcp-5.7") =
      .ok (some ⟨str "user-authentication", none, none, none⟩) ∧
    str "user-authentication" ≠ str "User Authentication" ∧
    getDocContent c7maldocs [str "gcp-5.7", str "broken"] .nil
      (str "gcp-5.7") = .ok none :=
  ⟨rfl, by decide, rfl⟩

/-- Claim C7 (amended): the title of a resolved document falls back in
three steps — the front-matter `title` when non-empty, else the trimmed
first `#` heading when non-empty, else the final slug segment of the
requested path (not the raw filename).  Missing front matter only falls
through this chain, but malformed front matter (a front-matter parse
failure) aborts the load to the not-found value. -/
theorem c7_amended (docs : FsList) (slug : List Str) (tree : NavList)
    (v : Str) (p : List Str) (src : MdSource)
    (hp : findMatchingFilePath docs slug = .ok (some p))
    (hread : getFileAt docs p = some src) :
    (src.fm = none → getDocContent docs slug tree v = .ok none) ∧
    (∀ data, src.fm = some data →
      ∃ out, getDocContent docs slug tree v = .ok (some out) ∧
        out.title = specTitle data.title (headingCapture src.body)
          (slug.getLast?.getD [])) := by
  constructor
  · intro hfm
    simp only [getDocContent, hp, except_bind_ok, hread, hfm]
  · intro data hfm
    have hgd : getDocContent docs slug tree v =
        .ok (some ⟨titleOf data.title src.body slug,
          resolveNavField data.nxt (str "Next") tree v,
          resolveNavField data.prev (str "Previous") tree v,
          resolveNavField data.uiLink (str "UI Link") tree v⟩) := by
      simp only [getDocContent, hp, except_bind_ok, hread, hfm]
    exact ⟨_, hgd, titleOf_eq_specTitle data.title src.body slug⟩

theorem c7_witness :
    getDocContent c7maldocs [str "gcp-5.7", str "broken"] .nil
      (str "gcp-5.7") = .ok none ∧
    (∃ out, getDocContent c7docs c7slug .nil (str "gcp-5.7") =
        .ok (some out) ∧
      out.title = specTitle fmEmpty.title (headingCapture c7src.body)
        (c7slug.getLast?.getD [])) :=
  ⟨(c7_amended c7maldocs [str "gcp-5.7", str "broken"] .nil (str "gcp-5.7")
      _ c7malsrc rfl rfl).1 rfl,
   (c7_amended c7docs c7slug .nil (str "gcp-5.7") _ c7src rfl rfl).2
      fmEmpty rfl⟩

/-! ### Claim C8: chronological prev/next -/

/-- Claim C8: in the chronological prev/next computation, the document at
(first) index `i` of the flattened sequence gets the document at `i - 1`
as previous page and the one at `i + 1` as next page; the first document
has no previous page and the last has no next page. -/
theorem c8_prev_next (docs : FsList) (v : Str) (tail0 slug : List Str)
    (allFiles : List DocRec) (i : Nat)
    (hslug : slug = v :: tail0)
    (hall : getAllMarkdownSlugs docs v = .ok allFiles)
    (hidx : allFiles.findIdx?
      (fun f => joinSlash f.slug == joinSlash slug) = some i) :
    getPageNavigationChronological docs slug =
      .ok ((if 0 < i then (allFiles[i - 1]?).map recLink else none),
        (if i < allFiles.length - 1 then (allFiles[i + 1]?).map recLink
          else none)) ∧
    (i = 0 → (if 0 < i then (allFiles[i - 1]?).map recLink else none)
      = none) ∧
    (i = allFiles.length - 1 →
      (if i < allFiles.length - 1 then (allFiles[i + 1]?).map recLink
        else none) = none) := by
  subst hslug
  refine ⟨?_, ?_, ?_⟩
  · simp only [getPageNavigationChronological, hall, except_bind_ok, hidx]
  · intro h0; subst h0; simp
  · intro hlast
    rw [if_neg (by omega)]

theorem c8_witness :
    getPageNavigationChronological c8docs [str "gcp-5.7", str "b"] =
      .ok (some ⟨str "/docs/gcp-5.7/a", str "a"⟩,
        some ⟨str "/docs/gcp-5.7/c", str "c"⟩) :=
  (c8_prev_next c8docs (str "gcp-5.7") [str "b"] _ c8files 1
    rfl rfl rfl).1


/-! ### Claim C4: ordering -/

theorem navCmp_folder_file (x y : NavItem) (hx : x.ty = .folder)
    (hy : y.ty = .file) : navCmp x y = -1 := by
  rw [navCmp, if_pos ⟨hx, hy⟩]

theorem navCmp_file_folder (x y : NavItem) (hx : x.ty = .file)
    (hy : y.ty = .folder) : navCmp x y = 1 := by
  rw [navCmp, if_neg (by simp [hx]), if_pos ⟨hx, hy⟩]

theorem all_notFolder_insert (x : NavItem) (hx : x.ty = .file)
    (ys : List NavItem) (h : ys.all notFolder = true) :
    (insertByCmp navCmp x ys).all notFolder = true := by
  induction ys with
  | nil => simp [insertByCmp, notFolder, hx]
  | cons z zs ih =>
    simp only [List.all_cons, Bool.and_eq_true] at h
    by_cases hc : navCmp x z < 0
    · simp only [insertByCmp, if_pos hc, List.all_cons, Bool.and_eq_true]
      exact ⟨by simp [notFolder, hx], h.1, h.2⟩
    · simp only [insertByCmp, if_neg hc, List.all_cons, Bool.and_eq_true]
      exact ⟨h.1, ih h.2⟩

theorem topFBF_insert (x : NavItem) (l : List NavItem)
    (h : topFoldersBeforeFiles l = true) :
    topFoldersBeforeFiles (insertByCmp navCmp x l) = true := by
  induction l with
  | nil =>
    cases hx : x.ty <;>
      simp [insertByCmp, topFoldersBeforeFiles, hx]
  | cons y ys ih =>
    simp only [topFoldersBeforeFiles, Bool.and_eq_true] at h
    by_cases hc : navCmp x y < 0
    · simp only [insertByCmp, if_pos hc, topFoldersBeforeFiles,
        Bool.and_eq_true]
      refine ⟨?_, h.1, h.2⟩
      cases hx : x.ty with
      | folder => simp
      | file =>
        cases hy : y.ty with
        | folder =>
          exfalso
          rw [navCmp_file_folder x y hx hy] at hc
          omega
        | file =>
          simp only [List.all_cons, Bool.and_eq_true]
          have h1 := h.1
          rw [hy] at h1
          exact ⟨by simp [notFolder, hy], h1⟩
    · simp only [insertByCmp, if_neg hc, topFoldersBeforeFiles,
        Bool.and_eq_true]
      refine ⟨?_, ih h.2⟩
      cases hy : y.ty with
      | folder => simp
      | file =>
        have h1 := h.1
        rw [hy] at h1
        cases hx : x.ty with
        | folder =>
          exfalso
          exact hc (by rw [navCmp_folder_file x y hx hy]; omega)
        | file => exact all_notFolder_insert x hx ys h1

theorem sortNav_foldersFirst (items : List NavItem) :
    topFoldersBeforeFiles (sortNav items) = true := by
  induction items with
  | nil => rfl
  | cons x xs ih => exact topFBF_insert x _ ih

theorem walkList_nil (sa pa : List Str) : walkList .nil sa pa = .ok [] := rfl

theorem walkList_cons (e : FsEntry) (rest : FsList) (sa pa : List Str) :
    walkList (.cons e rest) sa pa =
      (walkEntry e sa pa >>= fun xs =>
        walkList rest sa pa >>= fun ys => .ok (xs ++ ys)) := rfl

theorem walkEntry_dir_true (n : Str) (ch : FsList) (sa pa : List Str) :
    walkEntry (.dir n true ch) sa pa =
      walkList ch (sa ++ [slugify n]) (pa ++ [n]) := rfl

theorem walkEntry_dir_false (n : Str) (ch : FsList) (sa pa : List Str) :
    walkEntry (.dir n false ch) sa pa = .error () := rfl

theorem walkEntry_file (fn : Str) (src : MdSource) (sa pa : List Str) :
    walkEntry (.file fn src) sa pa =
      .ok (if endsWithStr (str ".md") fn then
        [⟨sa ++ [slugify (stripMd fn)], stripMd fn, pa ++ [fn]⟩]
      else []) := rfl

theorem gftList_nil : getFolderTreeList .nil = .ok .nil := rfl

theorem gftList_cons (e : FsEntry) (rest : FsList) :
    getFolderTreeList (.cons e rest) =
      (getFolderTreeEntry e >>= fun x =>
        getFolderTreeList rest >>= fun t =>
          .ok (match x with | some node => .cons node t | none => t)) := rfl

theorem gftEntry_dir_true (n : Str) (ch : FsList) :
    getFolderTreeEntry (.dir n true ch) =
      (getFolderTreeList ch >>= fun t => .ok (some (.folder n t))) := rfl

theorem gftEntry_dir_false (n : Str) (ch : FsList) :
    getFolderTreeEntry (.dir n false ch) = .error () := rfl

theorem gftEntry_file (fn : Str) (src : MdSource) :
    getFolderTreeEntry (.file fn src) =
      .ok (if endsWithStr (str ".md") fn then some (.file fn) else none) := rfl

theorem getFolderTree_names (es : FsList) :
    ∀ ns, getFolderTreeList es = .ok ns → navListNames ns = keptNames es := by
  cases es with
  | nil =>
    intro ns h
    rw [gftList_nil, Except.ok.injEq] at h
    subst h
    rfl
  | cons e rest =>
    intro ns h
    rw [gftList_cons] at h
    cases e with
    | dir n rb ch =>
      cases rb with
      | false =>
        rw [gftEntry_dir_false, except_bind_err] at h
        exact Except.noConfusion h
      | true =>
        rw [gftEntry_dir_true] at h
        cases hch : getFolderTreeList ch with
        | error u =>
          cases u
          rw [hch, except_bind_err, except_bind_err] at h
          exact Except.noConfusion h
        | ok tch =>
          rw [hch, except_bind_ok, except_bind_ok] at h
          cases hrest : getFolderTreeList rest with
          | error u =>
            cases u
            rw [hrest, except_bind_err] at h
            exact Except.noConfusion h
          | ok t =>
            rw [hrest, except_bind_ok, Except.ok.injEq] at h
            subst h
            show n :: navListNames t = _
            rw [getFolderTree_names rest t hrest]
            rfl
    | file fn src =>
      rw [gftEntry_file, except_bind_ok] at h
      cases hrest : getFolderTreeList rest with
      | error u =>
        cases u
        rw [hrest, except_bind_err] at h
        exact Except.noConfusion h
      | ok t =>
        rw [hrest, except_bind_ok, Except.ok.injEq] at h
        by_cases hmd : endsWithStr (str ".md") fn = true
        · rw [if_pos hmd] at h
          subst h
          show fn :: navListNames t = _
          rw [getFolderTree_names rest t hrest]
          show _ = (if FsEntry.isDir (.file fn src) || _ then _ else _) ++ _
          rw [FsEntry.isDir, Bool.false_or, FsEntry.name, if_pos hmd]
          rfl
        · rw [Bool.not_eq_true] at hmd
          rw [hmd] at h
          simp only [Bool.false_eq_true, if_false] at h
          subst h
          rw [getFolderTree_names rest t hrest]
          show _ = (if FsEntry.isDir (.file fn src) || _ then _ else _) ++ _
          rw [FsEntry.isDir, Bool.false_or, FsEntry.name, hmd]
          rfl

/-- Counterexample to claim C4 as stated: for a directory listing with the
file `b.md` before the folder `a` (containing `c.md`), the navigation tree
keeps the listing order — a File node precedes a Folder node — and the
depth-first flattened prev/next sequence is `[b, a/c]`, not the
folders-before-files order `[a/c, b]`. -/
theorem c4_counterexample :
    getFolderTreeList c4entries = .ok c4tree ∧
    treeFoldersFirstList c4tree = false ∧
    walkList c4entries [str "v"] [str "v"] =
      .ok [⟨[str "v", str "b"], str "b", [str "v", str "b.md"]⟩,
        ⟨[str "v", str "a", str "c"], str "c", [str "v", str "a", str "c.md"]⟩] ∧
    ([[str "v", str "b"], [str "v", str "a", str "c"]] : List (List Str)) ≠
      [[str "v", str "a", str "c"], [str "v", str "b"]] :=
  ⟨rfl, rfl, rfl, by decide⟩

theorem dfsList_nil (sa pa : List Str) : dfsFlattenList .nil sa pa = [] := rfl

theorem dfsList_cons (e : FsEntry) (rest : FsList) (sa pa : List Str) :
    dfsFlattenList (.cons e rest) sa pa =
      dfsFlattenEntry e sa pa ++ dfsFlattenList rest sa pa := rfl

theorem dfsEntry_dir (n : Str) (rb : Bool) (ch : FsList) (sa pa : List Str) :
    dfsFlattenEntry (.dir n rb ch) sa pa =
      dfsFlattenList ch (sa ++ [slugify n]) (pa ++ [n]) := rfl

theorem dfsEntry_file (fn : Str) (src : MdSource) (sa pa : List Str) :
    dfsFlattenEntry (.file fn src) sa pa =
      (if endsWithStr (str ".md") fn then
        [⟨sa ++ [slugify (stripMd fn)], stripMd fn, pa ++ [fn]⟩]
      else []) := rfl

/-- The walker, whenever it succeeds, produces exactly the spec-worded
depth-first flattening in raw listing order: folders contribute inline at
their listing position and nothing is reordered — universally over
listings and accumulators. -/
theorem walkList_eq_dfsFlatten (N : Nat) : ∀ (es : FsList), sizeOf es ≤ N →
    ∀ S P recs, walkList es S P = .ok recs →
    recs = dfsFlattenList es S P := by
  induction N with
  | zero =>
    intro es hs
    exfalso
    cases es with
    | nil => rw [FsList.nil.sizeOf_spec] at hs; omega
    | cons e rest => rw [FsList.cons.sizeOf_spec] at hs; omega
  | succ N ih =>
    intro es hs S P recs hw
    cases es with
    | nil =>
      rw [walkList_nil, Except.ok.injEq] at hw
      subst hw
      rfl
    | cons e rest =>
      rw [walkList_cons] at hw
      have hrestN : sizeOf rest ≤ N := by
        rw [FsList.cons.sizeOf_spec] at hs; omega
      cases e with
      | dir n rb ch =>
        cases rb with
        | false =>
          rw [walkEntry_dir_false, except_bind_err] at hw
          exact Except.noConfusion hw
        | true =>
          have hchN : sizeOf ch ≤ N := by
            rw [FsList.cons.sizeOf_spec, FsEntry.dir.sizeOf_spec] at hs; omega
          rw [walkEntry_dir_true] at hw
          cases hsub : walkList ch (S ++ [slugify n]) (P ++ [n]) with
          | error u =>
            cases u
            rw [hsub, except_bind_err] at hw
            exact Except.noConfusion hw
          | ok sub =>
            rw [hsub, except_bind_ok] at hw
            cases htail : walkList rest S P with
            | error u =>
              cases u
              rw [htail, except_bind_err] at hw
              exact Except.noConfusion hw
            | ok tail =>
              rw [htail, except_bind_ok, Except.ok.injEq] at hw
              subst hw
              rw [dfsList_cons, dfsEntry_dir,
                ih ch hchN _ _ sub hsub, ih rest hrestN S P tail htail]
      | file fn src =>
        rw [walkEntry_file, except_bind_ok] at hw
        cases htail : walkList rest S P with
        | error u =>
          cases u
          rw [htail, except_bind_err] at hw
          exact Except.noConfusion hw
        | ok tail =>
          rw [htail, except_bind_ok, Except.ok.injEq] at hw
          subst hw
          rw [dfsList_cons, dfsEntry_file, ih rest hrestN S P tail htail]

/-- Claim C4 (amended): the navigation tree built for a version keeps the
raw directory-listing order at every level (the tree's node names are the
kept entries' names in listing order), and the flattened prev/next
sequence follows that same listing order (whenever the walk succeeds its
records are exactly the listing-order depth-first flattening, at every
level of any listing); only the sidebar's top-level item list is
re-sorted, and after that sort every folder item precedes every file
item. -/
theorem c4_amended :
    (∀ items : List NavItem,
      topFoldersBeforeFiles (sortNav items) = true) ∧
    (∀ (es : FsList) (ns : NavList),
      getFolderTreeList es = .ok ns → navListNames ns = keptNames es) ∧
    (∀ (es : FsList) (S P : List Str) (recs : List DocRec),
      walkList es S P = .ok recs → recs = dfsFlattenList es S P) :=
  ⟨sortNav_foldersFirst, fun es ns h => getFolderTree_names es ns h,
   fun es S P recs h => walkList_eq_dfsFlatten (sizeOf es) es le_rfl S P recs h⟩

theorem c4_witness :
    topFoldersBeforeFiles
      (sortNav (convertTreeToNavList (str "gcp-5.7") c4tree [])) = true ∧
    navListNames c4tree = keptNames c4entries ∧
    [⟨[str "v", str "b"], str "b", [str "v", str "b.md"]⟩,
     ⟨[str "v", str "a", str "c"], str "c", [str "v", str "a", str "c.md"]⟩] =
      dfsFlattenList c4entries [str "v"] [str "v"] :=
  ⟨c4_amended.1 (convertTreeToNavList (str "gcp-5.7") c4tree []),
   c4_amended.2.1 c4entries c4tree rfl,
   c4_amended.2.2 c4entries [str "v"] [str "v"] _ rfl⟩


/-! ### Claim C1: round-trip resolution -/

theorem find?_cons (p : FsEntry → Bool) (e : FsEntry) (rest : FsList) :
    FsList.find? p (.cons e rest) =
      if p e then some e else FsList.find? p rest := rfl

theorem goodList_cons (e : FsEntry) (rest : FsList) :
    goodList (.cons e rest) =
      (noClash e rest && goodEntry e && goodList rest) := rfl

theorem goodEntry_dir (n : Str) (rb : Bool) (ch : FsList) :
    goodEntry (.dir n rb ch) = goodList ch := rfl

theorem fmfpAux_one (es : FsList) (acc : List Str) (lastPart : Str) :
    fmfpAux es acc [lastPart] =
      .ok (match es.find? (fileSegMatch lastPart) with
        | some f => some (acc ++ [f.name])
        | none => none) := rfl

theorem fmfpAux_two (es : FsList) (acc : List Str) (p p2 : Str)
    (rest : List Str) :
    fmfpAux es acc (p :: p2 :: rest) =
      (match es.find? (dirSegMatch p) with
       | none => .ok none
       | some (.dir n true ch) => fmfpAux ch (acc ++ [n]) (p2 :: rest)
       | some (.dir _ false _) => .error ()
       | some (.file _ _) => .error ()) := rfl

theorem walkList_struct (N : Nat) : ∀ (es : FsList), sizeOf es ≤ N →
    ∀ S P recs, walkList es S P = .ok recs →
    ∀ r, r ∈ recs → ∃ e, e ∈ es ∧ walkShape S P e r := by
  induction N with
  | zero =>
    intro es hs
    exfalso
    cases es with
    | nil => rw [FsList.nil.sizeOf_spec] at hs; omega
    | cons e rest => rw [FsList.cons.sizeOf_spec] at hs; omega
  | succ N ih =>
    intro es hs S P recs hw r hr
    cases es with
    | nil =>
      rw [walkList_nil, Except.ok.injEq] at hw
      subst hw
      exact absurd hr (List.not_mem_nil r)
    | cons e rest =>
      rw [walkList_cons] at hw
      have hrest : sizeOf rest ≤ N := by
        rw [FsList.cons.sizeOf_spec] at hs; omega
      cases e with
      | dir n rb ch =>
        cases rb with
        | false =>
          rw [walkEntry_dir_false, except_bind_err] at hw
          exact Except.noConfusion hw
        | true =>
          have hch : sizeOf ch ≤ N := by
            rw [FsList.cons.sizeOf_spec, FsEntry.dir.sizeOf_spec] at hs; omega
          rw [walkEntry_dir_true] at hw
          cases hsub : walkList ch (S ++ [slugify n]) (P ++ [n]) with
          | error u =>
            cases u
            rw [hsub, except_bind_err] at hw
            exact Except.noConfusion hw
          | ok sub =>
            rw [hsub, except_bind_ok] at hw
            cases htail : walkList rest S P with
            | error u =>
              cases u
              rw [htail, except_bind_err] at hw
              exact Except.noConfusion hw
            | ok tail =>
              rw [htail, except_bind_ok, Except.ok.injEq] at hw
              subst hw
              rcases List.mem_append.mp hr with hrs | hrt
              · obtain ⟨e2, _, hshape⟩ := ih ch hch _ _ sub hsub r hrs
                refine ⟨.dir n true ch, Or.inl rfl, Or.inl ⟨n, ch, rfl, ?_⟩⟩
                rcases hshape with
                  ⟨n2, ch2, _, t2, q2, _, hslug, hpath⟩ |
                  ⟨fn2, src2, _, _, hslug, hpath⟩
                · exact ⟨slugify n2 :: t2, n2 :: q2, by simp,
                    by rw [hslug]; simp, by rw [hpath]; simp⟩
                · exact ⟨[slugify (stripMd fn2)], [fn2], by simp,
                    by rw [hslug]; simp, by rw [hpath]; simp⟩
              · obtain ⟨e2, he2, hshape⟩ := ih rest hrest S P tail htail r hrt
                exact ⟨e2, Or.inr he2, hshape⟩
      | file fn src =>
        rw [walkEntry_file, except_bind_ok] at hw
        cases htail : walkList rest S P with
        | error u =>
          cases u
          rw [htail, except_bind_err] at hw
          exact Except.noConfusion hw
        | ok tail =>
          rw [htail, except_bind_ok, Except.ok.injEq] at hw
          subst hw
          by_cases hmd : endsWithStr (str ".md") fn = true
          · rw [if_pos hmd] at hr
            rcases List.mem_append.mp hr with hrs | hrt
            · have hreq : r = ⟨S ++ [slugify (stripMd fn)], stripMd fn,
                  P ++ [fn]⟩ := by simpa using hrs
              subst hreq
              exact ⟨.file fn src, Or.inl rfl,
                Or.inr ⟨fn, src, rfl, hmd, rfl, rfl⟩⟩
            · obtain ⟨e2, he2, hshape⟩ := ih rest hrest S P tail htail r hrt
              exact ⟨e2, Or.inr he2, hshape⟩
          · rw [Bool.not_eq_true] at hmd
            rw [hmd] at hr
            simp only [Bool.false_eq_true, if_false, List.nil_append] at hr
            obtain ⟨e2, he2, hshape⟩ := ih rest hrest S P tail htail r hr
            exact ⟨e2, Or.inr he2, hshape⟩


/-- Skipping a non-matching head entry: if the record was produced by a
sibling that does not clash with the head entry, resolution ignores the
head. -/
theorem fmfpAux_skip (e : FsEntry) (rest : FsList) (acc parts S P : List Str)
    (r : DocRec) (e2 : FsEntry)
    (hclash : clash e e2 = false)
    (hshape : walkShape S P e2 r)
    (hparts : r.slug = S ++ parts) :
    fmfpAux (.cons e rest) acc parts = fmfpAux rest acc parts := by
  rcases hshape with
    ⟨n2, ch2, he2eq, t2, q2, ht2, hslug, hpath⟩ |
    ⟨fn2, src2, he2eq, hmd2, hslug, hpath⟩
  · have hpartsU : parts = slugify n2 :: t2 :=
      (List.append_right_inj S).mp (by rw [← hparts, hslug])
    cases t2 with
    | nil => exact absurd rfl ht2
    | cons t21 t2s =>
      subst hpartsU
      have hpredF : dirSegMatch (slugify n2) e = false := by
        cases e with
        | dir n rb ch =>
          subst he2eq
          have hb : (slugify n == slugify n2) = false := hclash
          simp [dirSegMatch, FsEntry.isDir, FsEntry.name, hb]
        | file fn src => simp [dirSegMatch, FsEntry.isDir]
      rw [fmfpAux_two, find?_cons, if_neg (by simp [hpredF])]
      rfl
  · have hpartsU : parts = [slugify (stripMd fn2)] :=
      (List.append_right_inj S).mp (by rw [← hparts, hslug])
    subst hpartsU
    have hpredF : fileSegMatch (slugify (stripMd fn2)) e = false := by
      cases e with
      | dir n rb ch => simp [fileSegMatch, FsEntry.isFile]
      | file fn src =>
        subst he2eq
        have hb : (lowerMd fn && lowerMd fn2 &&
            (slugify (stripMd fn) == slugify (stripMd fn2))) = false := hclash
        have hl2 : lowerMd fn2 = true := endsMd_lowerMd fn2 hmd2
        rw [hl2] at hb
        simp only [Bool.and_true] at hb
        simp [fileSegMatch, FsEntry.isFile, FsEntry.name, slugify_idem]
        intro hlf
        rcases Bool.and_eq_false_iff.mp hb with h | h
        · exact absurd hlf (by simp [h])
        · simpa using h
    rw [fmfpAux_one, find?_cons, if_neg (by simp [hpredF])]
    rfl

theorem resolveWalk (N : Nat) : ∀ (es : FsList), sizeOf es ≤ N →
    goodList es = true →
    ∀ S P recs, walkList es S P = .ok recs →
    ∀ r, r ∈ recs → ∀ parts rel acc,
      r.slug = S ++ parts → r.filePath = P ++ rel →
      fmfpAux es acc parts = .ok (some (acc ++ rel)) := by
  induction N with
  | zero =>
    intro es hs
    exfalso
    cases es with
    | nil => rw [FsList.nil.sizeOf_spec] at hs; omega
    | cons e rest => rw [FsList.cons.sizeOf_spec] at hs; omega
  | succ N ih =>
    intro es hs hgood S P recs hw r hr parts rel acc hparts hrel
    cases es with
    | nil =>
      rw [walkList_nil, Except.ok.injEq] at hw
      subst hw
      exact absurd hr (List.not_mem_nil r)
    | cons e rest =>
      rw [goodList_cons] at hgood
      simp only [Bool.and_eq_true] at hgood
      obtain ⟨⟨hnc, hge⟩, hgrest⟩ := hgood
      rw [walkList_cons] at hw
      have hrestN : sizeOf rest ≤ N := by
        rw [FsList.cons.sizeOf_spec] at hs; omega
      cases e with
      | dir n rb ch =>
        cases rb with
        | false =>
          rw [walkEntry_dir_false, except_bind_err] at hw
          exact Except.noConfusion hw
        | true =>
          have hchN : sizeOf ch ≤ N := by
            rw [FsList.cons.sizeOf_spec, FsEntry.dir.sizeOf_spec] at hs; omega
          rw [walkEntry_dir_true] at hw
          cases hsub : walkList ch (S ++ [slugify n]) (P ++ [n]) with
          | error u =>
            cases u
            rw [hsub, except_bind_err] at hw
            exact Except.noConfusion hw
          | ok sub =>
            rw [hsub, except_bind_ok] at hw
            cases htail : walkList rest S P with
            | error u =>
              cases u
              rw [htail, except_bind_err] at hw
              exact Except.noConfusion hw
            | ok tail =>
              rw [htail, except_bind_ok, Except.ok.injEq] at hw
              subst hw
              rcases List.mem_append.mp hr with hrs | hrt
              · obtain ⟨e2, _, hshape⟩ :=
                  walkList_struct (sizeOf ch) ch le_rfl _ _ sub hsub r hrs
                have hUW : ∃ u w, u ≠ [] ∧
                    r.slug = (S ++ [slugify n]) ++ u ∧
                    r.filePath = (P ++ [n]) ++ w := by
                  rcases hshape with
                    ⟨n2, ch2, _, t2, q2, _, hslug, hpath⟩ |
                    ⟨fn2, src2, _, _, hslug, hpath⟩
                  · exact ⟨slugify n2 :: t2, n2 :: q2, by simp, hslug, hpath⟩
                  · exact ⟨[slugify (stripMd fn2)], [fn2], by simp, hslug,
                      hpath⟩
                obtain ⟨u, w, hu, hslugU, hpathW⟩ := hUW
                have hpartsU : parts = slugify n :: u :=
                  (List.append_right_inj S).mp
                    (by rw [← hparts, hslugU]; simp)
                have hrelW : rel = n :: w :=
                  (List.append_right_inj P).mp
                    (by rw [← hrel, hpathW]; simp)
                cases u with
                | nil => exact absurd rfl hu
                | cons u1 us =>
                  subst hpartsU
                  subst hrelW
                  rw [fmfpAux_two, find?_cons, if_pos
                    (by simp [dirSegMatch, FsEntry.isDir, FsEntry.name])]
                  show fmfpAux ch (acc ++ [n]) (u1 :: us) = _
                  rw [ih ch hchN hge _ _ sub hsub r hrs (u1 :: us) w
                    (acc ++ [n]) hslugU hpathW, List.append_assoc]
                  rfl
              · obtain ⟨e2, he2, hshape⟩ :=
                  walkList_struct (sizeOf rest) rest le_rfl S P tail htail r hrt
                rw [fmfpAux_skip (.dir n true ch) rest acc parts S P r e2
                  (noClash_mem _ _ _ hnc he2) hshape hparts]
                exact ih rest hrestN hgrest S P tail htail r hrt parts rel acc
                  hparts hrel
      | file fn src =>
        rw [walkEntry_file, except_bind_ok] at hw
        cases htail : walkList rest S P with
        | error u =>
          cases u
          rw [htail, except_bind_err] at hw
          exact Except.noConfusion hw
        | ok tail =>
          rw [htail, except_bind_ok, Except.ok.injEq] at hw
          subst hw
          by_cases hmd : endsWithStr (str ".md") fn = true
          · rw [if_pos hmd] at hr
            rcases List.mem_append.mp hr with hrs | hrt
            · have hreq : r = ⟨S ++ [slugify (stripMd fn)], stripMd fn,
                  P ++ [fn]⟩ := by simpa using hrs
              subst hreq
              have hpartsU : parts = [slugify (stripMd fn)] :=
                (List.append_right_inj S).mp (by rw [← hparts])
              have hrelW : rel = [fn] :=
                (List.append_right_inj P).mp (by rw [← hrel])
              subst hpartsU
              subst hrelW
              rw [fmfpAux_one, find?_cons, if_pos (by
                simp [fileSegMatch, FsEntry.isFile, FsEntry.name,
                  endsMd_lowerMd fn hmd, slugify_idem])]
              rfl
            · obtain ⟨e2, he2, hshape⟩ :=
                walkList_struct (sizeOf rest) rest le_rfl S P tail htail r hrt
              rw [fmfpAux_skip (.file fn src) rest acc parts S P r e2
                (noClash_mem _ _ _ hnc he2) hshape hparts]
              exact ih rest hrestN hgrest S P tail htail r hrt parts rel acc
                hparts hrel
          · rw [Bool.not_eq_true] at hmd
            rw [hmd] at hr
            simp only [Bool.false_eq_true, if_false, List.nil_append] at hr
            obtain ⟨e2, he2, hshape⟩ :=
              walkList_struct (sizeOf rest) rest le_rfl S P tail htail r hr
            rw [fmfpAux_skip (.file fn src) rest acc parts S P r e2
              (noClash_mem _ _ _ hnc he2) hshape hparts]
            exact ih rest hrestN hgrest S P tail htail r hr parts rel acc
              hparts hrel


/-- Claim C1: round-trip resolution.  For a version directory that the
resolver's first-segment search finds (and that the walker lists), when no
two siblings anywhere in its tree clash (directories with equal slugs, or
resolver-matchable files with equal base slugs), every markdown file
record produced by walking the version's tree resolves — via its
slugified SlugPath — back to exactly that file's real path on disk. -/
theorem c1_roundtrip (docs : FsList) (v : Str) (ch : FsList)
    (recs : List DocRec) (r : DocRec)
    (hversion : docs.find? (fun e => e.name == v) = some (.dir v true ch))
    (hresolve : docs.find? (dirSegMatch v) = some (.dir v true ch))
    (hgood : goodList ch = true)
    (hwalk : getAllMarkdownSlugs docs v = .ok recs)
    (hr : r ∈ recs) :
    findMatchingFilePath docs r.slug = .ok (some r.filePath) := by
  rw [getAllMarkdownSlugs, hversion] at hwalk
  obtain ⟨e2, _, hshape⟩ :=
    walkList_struct (sizeOf ch) ch le_rfl [v] [v] recs hwalk r hr
  have hUW : ∃ u w, u ≠ [] ∧ r.slug = [v] ++ u ∧ r.filePath = [v] ++ w := by
    rcases hshape with
      ⟨n2, ch2, _, t2, q2, _, hslug, hpath⟩ |
      ⟨fn2, src2, _, _, hslug, hpath⟩
    · exact ⟨slugify n2 :: t2, n2 :: q2, by simp, hslug, hpath⟩
    · exact ⟨[slugify (stripMd fn2)], [fn2], by simp, hslug, hpath⟩
  obtain ⟨u, w, hu, hslugU, hpathW⟩ := hUW
  cases u with
  | nil => exact absurd rfl hu
  | cons u1 us =>
    rw [findMatchingFilePath, hslugU]
    simp only [List.cons_append, List.nil_append]
    rw [fmfpAux_two, hresolve]
    show fmfpAux ch ([] ++ [v]) (u1 :: us) = _
    rw [resolveWalk (sizeOf ch) ch le_rfl hgood [v] [v] recs hwalk r hr
      (u1 :: us) w ([] ++ [v]) hslugU hpathW, hpathW]
    rfl

theorem c1_witness :
    findMatchingFilePath c2docs
      [str "gcp-5.7", str "02-user-guide", str "overview"] =
      .ok (some [str "gcp-5.7", str "02_User Guide", str "overview.md"]) :=
  c1_roundtrip c2docs (str "gcp-5.7") c2ch
    [⟨[str "gcp-5.7", str "02-user-guide", str "overview"], str "overview",
      [str "gcp-5.7", str "02_User Guide", str "overview.md"]⟩]
    ⟨[str "gcp-5.7", str "02-user-guide", str "overview"], str "overview",
      [str "gcp-5.7", str "02_User Guide", str "overview.md"]⟩
    rfl rfl rfl rfl (by simp)

end DocsSite
